import Mathlib

/-!
Verification of the `llvm-remarkutil` counting and diffing core
(`RemarkUtilHelpers.cpp`, `RemarkCounter.{h,cpp}`, `RemarkDiff.{h,cpp}`)
against its natural-language specification.

The C++ sources are shallowly embedded: each C++ function is translated
into an executable Lean definition over explicit data (`std::map` becomes
a key-sorted association list, `MapVector` an insertion-ordered
association list, `SmallSet` a list with membership-checked insertion,
loops become folds).  The external LLVM regex engine is abstracted as a
compile function producing an optional match predicate.
-/

namespace RemarkUtil

/-- Modelled from the spec: the remark outcome type enumeration
(`llvm::remarks::Type` lives outside `src/`; §3 of the spec lists exactly
these variants). -/
inductive RemarkType where
  | Unknown
  | Passed
  | Missed
  | Analysis
  | AnalysisFPCommentary
  | Failure
deriving DecidableEq, Repr

/-- Modelled from the spec: the optional source location carried by a
remark (`llvm::remarks::RemarkLocation` lives outside `src/`): a file
path, a line and a column. -/
structure RemarkLocation where
  SourceFilePath : String
  SourceLine : Nat
  SourceColumn : Nat
deriving DecidableEq, Repr

/-- Modelled from the spec: one remark argument
(`llvm::remarks::Argument` lives outside `src/`): a key, a string value,
and the optional integer reading of the value (`getValAsInt`); per §3 the
numeric flag is the presence of that integer. -/
structure Argument where
  Key : String
  Val : String
  ValInt : Option Int
deriving DecidableEq, Repr

/-- `Argument::isValInt()`: the value parses as an integer. -/
def Argument.isValInt (a : Argument) : Bool :=
  a.ValInt.isSome

/-- Modelled from the spec: the parsed remark record
(`llvm::remarks::Remark` lives outside `src/`): name, pass, function,
outcome type, optional location and ordered argument list (§3). -/
structure Remark where
  RemarkName : String
  PassName : String
  FunctionName : String
  RemarkType : RemarkType
  Loc : Option RemarkLocation
  Args : List Argument
deriving DecidableEq, Repr

/-- Modelled from the spec: the external regex engine
(`llvm::Regex` lives outside `src/`).  `compile` returns the match
predicate of a pattern, or `none` when the pattern text is malformed
(`Regex::isValid` fails); matching against an invalid regex yields
`false`. -/
structure RegexEngine where
  compile : String → Option (String → Bool)

/-- `FilterMatcher` (RemarkCounter.h:52-66): either a literal string or a
regex; `FilterRE` holds the compiled pattern (`none` for a literal
matcher, and also when compilation of a regex pattern failed). -/
structure FilterMatcher where
  FilterStr : String
  IsRegex : Bool
  FilterRE : Option (String → Bool)

/-- The `FilterMatcher(std::string, bool)` constructor: a regex matcher
compiles its pattern with the engine, a literal matcher stores the
string. -/
def FilterMatcher.create (eng : RegexEngine) (filter : String) (isRegex : Bool) :
    FilterMatcher :=
  { FilterStr := filter
    IsRegex := isRegex
    FilterRE := if isRegex then eng.compile filter else none }

/-- `FilterMatcher::match` (RemarkCounter.h:61-65): a regex matcher runs
the compiled pattern, a literal matcher compares with the
whitespace-trimmed candidate. -/
def FilterMatcher.fmatch (m : FilterMatcher) (s : String) : Bool :=
  if m.IsRegex then
    match m.FilterRE with
    | some f => f s
    | none => false
  else m.FilterStr == s.trim

/-- `Filters` (RemarkCounter.h:69-96): up to four optional predicates. -/
structure Filters where
  RemarkNameFilter : Option FilterMatcher
  PassNameFilter : Option FilterMatcher
  ArgFilter : Option FilterMatcher
  RemarkTypeFilter : Option RemarkType

/-- `checkRegex` (RemarkCounter.h:99-105): error iff the compiled regex
is invalid. -/
def checkRegex (re : Option (String → Bool)) : Except String Unit :=
  match re with
  | some _ => Except.ok ()
  | none => Except.error "Regex: invalid pattern"

/-- One clause of `Filters::regexArgumentsValid`
(RemarkUtilHelpers.cpp:26-37): a present regex matcher must hold a valid
compiled regex. -/
def checkOptMatcher (o : Option FilterMatcher) : Except String Unit :=
  match o with
  | some m => if m.IsRegex then checkRegex m.FilterRE else Except.ok ()
  | none => Except.ok ()

/-- `Filters::regexArgumentsValid` (RemarkUtilHelpers.cpp:26-37): check
the name, pass and argument matchers in this order, returning the first
error. -/
def Filters.regexArgumentsValid (F : Filters) : Except String Unit :=
  match checkOptMatcher F.RemarkNameFilter with
  | Except.error e => Except.error e
  | Except.ok _ =>
    match checkOptMatcher F.PassNameFilter with
    | Except.error e => Except.error e
    | Except.ok _ => checkOptMatcher F.ArgFilter

/-- A matcher slot configured with a regex whose pattern did not
compile. -/
def badPattern (o : Option FilterMatcher) : Prop :=
  ∃ m, o = some m ∧ m.IsRegex = true ∧ m.FilterRE = none

/-- `Filters::createRemarkFilter` (RemarkCounter.h:76-89): build the
filter and fail if any configured regex did not compile. -/
def Filters.createRemarkFilter (nm pm am : Option FilterMatcher)
    (ty : Option RemarkType) : Except String Filters :=
  let F : Filters := ⟨nm, pm, am, ty⟩
  match F.regexArgumentsValid with
  | Except.error e => Except.error e
  | Except.ok _ => Except.ok F

/-- Tail of `Filters::filterRemark` (RemarkUtilHelpers.cpp:46-55): with a
type filter present return type equality immediately; otherwise a present
argument matcher requires some argument value to match; otherwise
accept. -/
def Filters.filterRemarkTail (F : Filters) (R : Remark) : Bool :=
  match F.RemarkTypeFilter with
  | some t => t == R.RemarkType
  | none =>
    match F.ArgFilter with
    | some m => R.Args.any fun a => m.fmatch a.Val
    | none => true

/-- The pass-name check of `Filters::filterRemark`
(RemarkUtilHelpers.cpp:43-45) followed by the tail. -/
def Filters.filterRemarkPass (F : Filters) (R : Remark) : Bool :=
  match F.PassNameFilter with
  | some m =>
    if m.fmatch R.PassName then F.filterRemarkTail R else false
  | none => F.filterRemarkTail R

/-- `Filters::filterRemark` (RemarkUtilHelpers.cpp:39-56): reject on a
failing name matcher, then on a failing pass matcher; with a type filter
present return type equality immediately; otherwise a present argument
matcher requires some argument value to match. -/
def Filters.filterRemark (F : Filters) (R : Remark) : Bool :=
  match F.RemarkNameFilter with
  | some m =>
    if m.fmatch R.RemarkName then F.filterRemarkPass R else false
  | none => F.filterRemarkPass R

/-- `GroupBy` (RemarkCounter.h:29-34): the four grouping modes. -/
inductive GroupBy where
  | TOTAL
  | PER_SOURCE
  | PER_FUNCTION
  | PER_FUNCTION_WITH_DEBUG_LOC
deriving DecidableEq, Repr

/-- `Counter::getGroupByKey` (RemarkCounter.cpp:101-118): derive the
grouping key of a remark; grouping by source or by function-with-location
yields no key when the remark has no debug location. -/
def getGroupByKey (g : GroupBy) (R : Remark) : Option String :=
  match g with
  | GroupBy.PER_FUNCTION => some R.FunctionName
  | GroupBy.TOTAL => some "Total"
  | GroupBy.PER_SOURCE =>
    match R.Loc with
    | none => none
    | some l => some l.SourceFilePath
  | GroupBy.PER_FUNCTION_WITH_DEBUG_LOC =>
    match R.Loc with
    | none => none
    | some l => some (l.SourceFilePath ++ ":" ++ R.FunctionName)

/-- Lexicographic comparison of character sequences by code point: the
order of `std::string::operator<`, which `std::map<std::string, int>`
keys are sorted by. -/
def charListLt : List Char → List Char → Bool
  | _, [] => false
  | [], _ :: _ => true
  | a :: as, b :: bs =>
    if a = b then charListLt as bs else decide (a.toNat < b.toNat)

/-- `std::string::operator<`: lexicographic comparison of the character
data. -/
def strLt (a b : String) : Bool :=
  charListLt a.data b.data

/-- The `std::map<std::string, int>` insert-or-increment of
`RemarkCounter::collect` (RemarkCounter.cpp:138-140): the map is kept
sorted by key in the order of `std::string::operator<` (`strLt`), a
fresh key starts at count 1. -/
def stdMapIncr : List (String × Nat) → String → List (String × Nat)
  | [], k => [(k, 1)]
  | (k', v) :: rest, k =>
    if strLt k k' then (k, 1) :: (k', v) :: rest
    else if k = k' then (k', v + 1) :: rest
    else (k', v) :: stdMapIncr rest k

/-- `RemarkCounter` (RemarkCounter.h:162-167): existence counting, the
map mirrors `std::map<std::string, int> CountedByRemarksMap`. -/
structure RemarkCounter where
  GroupBy : GroupBy
  CountedByRemarksMap : List (String × Nat)
deriving Repr

/-- `RemarkCounter::collect` (RemarkCounter.cpp:134-141): resolve the
group key; absent keys are ignored; otherwise insert-or-increment. -/
def RemarkCounter.collect (C : RemarkCounter) (R : Remark) : RemarkCounter :=
  match getGroupByKey C.GroupBy R with
  | none => C
  | some k => { C with CountedByRemarksMap := stdMapIncr C.CountedByRemarksMap k }

/-- The collection loop of `useCollectRemark` (RemarkCounter.cpp:215-235)
specialised to `RemarkCounter`: feed every filter-accepted remark of the
stream to the counter, starting from an empty count map.  The report of
`RemarkCounter::print` (RemarkCounter.cpp:174-187) lists
`CountedByRemarksMap` in its iteration order. -/
def useCollectRemark (g : GroupBy) (F : Filters) (remarks : List Remark) :
    RemarkCounter :=
  remarks.foldl (fun C R => if F.filterRemark R then C.collect R else C)
    ⟨g, []⟩

/-- The `MapVector<StringRef, int>::insert` of
`KeyCounter::getAllKeysInRemarks` (RemarkCounter.cpp:90): append a fresh
key with the next index, ignore a key already present. -/
def mapVectorInsertKey (m : List (String × Nat)) (k : String) (idx : Nat) :
    List (String × Nat) :=
  if m.any fun p => p.1 == k then m else m ++ [(k, idx)]

/-- `KeyCounter::getAllKeysInRemarks` (RemarkCounter.cpp:74-99) over an
already-parsed remark stream: for each filter-accepted remark, for each
configured key matcher, record every argument key that matches and whose
value is numeric. -/
def getAllKeysInRemarks (keys : List FilterMatcher) (F : Filters)
    (remarks : List Remark) : List (String × Nat) :=
  remarks.foldl
    (fun m R =>
      if F.filterRemark R then
        keys.foldl
          (fun m key =>
            R.Args.foldl
              (fun m a =>
                if key.fmatch a.Key && a.isValInt then
                  mapVectorInsertKey m a.Key m.length
                else m)
              m)
          m
      else m)
    []

/-- `KeyCounter` (RemarkCounter.h:124-160): keyed summation; only the
grouping mode and the discovered key universe are modelled (the
accumulation map starts empty). -/
structure KeyCounter where
  GroupBy : GroupBy
  KeySetIdxMap : List (String × Nat)
deriving Repr

/-- The key-validation loop of `KeyCounter::createKeyCounter`
(RemarkCounter.h:140-145): fail on the first regex key matcher whose
pattern did not compile. -/
def checkKeysRegex : List FilterMatcher → Except String Unit
  | [] => Except.ok ()
  | k :: rest =>
    if k.IsRegex then
      match checkRegex k.FilterRE with
      | Except.error e => Except.error e
      | Except.ok _ => checkKeysRegex rest
    else checkKeysRegex rest

/-- `KeyCounter::createKeyCounter` (RemarkCounter.h:135-149) over an
already-parsed remark stream: validate every regex key matcher, then run
the discovery pass. -/
def KeyCounter.createKeyCounter (g : RemarkUtil.GroupBy) (keys : List FilterMatcher)
    (remarks : List Remark) (F : Filters) : Except String KeyCounter :=
  match checkKeysRegex keys with
  | Except.error e => Except.error e
  | Except.ok _ => Except.ok ⟨g, getAllKeysInRemarks keys F remarks⟩

/-- The key-matcher list construction of `collectRemarks`
(RemarkCounter.cpp:252-260): literal keys if `-keys` is given, else regex
keys if `-rkeys` is given, else the single implicit wildcard pattern
`.*`. -/
def keysVectorOf (eng : RegexEngine) (keys rkeys : List String) :
    List FilterMatcher :=
  if !keys.isEmpty then keys.map fun k => FilterMatcher.create eng k false
  else if !rkeys.isEmpty then rkeys.map fun k => FilterMatcher.create eng k true
  else [FilterMatcher.create eng ".*" true]

/-- Modelled from the spec: insert-or-increment on an insertion-ordered
map (first-seen key order preserved), the order §4.4 claims for the
existence report. -/
def insertionOrderIncr (m : List (String × Nat)) (k : String) :
    List (String × Nat) :=
  if m.any fun p => p.1 == k then
    m.map fun p => if p.1 == k then (p.1, p.2 + 1) else p
  else m ++ [(k, 1)]

/-- Modelled from the spec: the existence-count report in first-seen
insertion order of group keys (§4.4 "report() -> ordered list of
(groupKey, count) in first-seen insertion order"). -/
def firstSeenReport (g : GroupBy) (F : Filters) (remarks : List Remark) :
    List (String × Nat) :=
  remarks.foldl
    (fun m R =>
      if F.filterRemark R then
        match getGroupByKey g R with
        | none => m
        | some k => insertionOrderIncr m k
      else m)
    []

/-- Keep the first occurrence of every element, in order (the order
described by §4.5 "first-seen order, duplicates ignored"). -/
def firstSeenDedup (l : List String) : List String :=
  l.foldl (fun acc k => if k ∈ acc then acc else acc ++ [k]) []

/-- Modelled from the spec: the sequence of candidate keys scanned by the
discovery pass of §4.5, in scan order: every filter-accepted remark, every
configured key matcher, every argument whose key matches it and whose
value is numeric. -/
def discoveredKeySeq (keys : List FilterMatcher) (F : Filters)
    (remarks : List Remark) : List String :=
  (remarks.filter fun R => F.filterRemark R).flatMap fun R =>
    keys.flatMap fun key =>
      R.Args.filterMap fun a =>
        if key.fmatch a.Key && a.isValInt then some a.Key else none

/-- `RemarkArgInfo` (RemarkDiff.h:9-15): a remark argument as a pair of
owned strings. -/
structure RemarkArgInfo where
  Key : String
  Val : String
deriving DecidableEq, Repr

/-- `RemarkInfo` (RemarkDiff.h:22-48): an owned copy of a remark. -/
structure RemarkInfo where
  RemarkName : String
  FunctionName : String
  PassName : String
  RemarkType : RemarkType
  Args : List RemarkArgInfo
deriving DecidableEq, Repr

/-- The `RemarkInfo(Remark&)` conversion constructor
(RemarkDiff.h:34-40). -/
def RemarkInfo.ofRemark (R : Remark) : RemarkInfo :=
  { RemarkName := R.RemarkName
    FunctionName := R.FunctionName
    PassName := R.PassName
    RemarkType := R.RemarkType
    Args := R.Args.map fun a => ⟨a.Key, a.Val⟩ }

/-- `RemarkInfo::hasSameHeader` (RemarkDiff.h:42-45): equal name,
function name and pass name. -/
def RemarkInfo.hasSameHeader (L R : RemarkInfo) : Bool :=
  L.RemarkName == R.RemarkName && L.FunctionName == R.FunctionName &&
    L.PassName == R.PassName

/-- `DebugLocation` (RemarkDiff.h:82-92): a source location combined with
a function name, used as the diff bucketing key. -/
structure DebugLocation where
  SourceFilePath : String
  FunctionName : String
  SourceLine : Nat
  SourceColumn : Nat
deriving DecidableEq, Repr

/-- `DiffAtRemark` (RemarkDiff.h:96-108): the diff of one header-matched
pair. -/
structure DiffAtRemark where
  BaseRemark : RemarkInfo
  RemarkTypeDiff : Option (RemarkType × RemarkType)
  OnlyA : List RemarkArgInfo
  OnlyB : List RemarkArgInfo
  InBoth : List RemarkArgInfo
deriving DecidableEq, Repr

/-- The two argument loops of `computeArgDiffAtRemark`
(RemarkDiff.cpp:295-314): positions below both lengths are classified as
common or one-sided, the tail of the longer list goes wholly to its own
side.  Returns `(InBoth, OnlyA, OnlyB)`. -/
def argDiffLists :
    List RemarkArgInfo → List RemarkArgInfo →
      List RemarkArgInfo × List RemarkArgInfo × List RemarkArgInfo
  | [], bs => ([], [], bs)
  | a :: as, [] => ([], a :: as, [])
  | a :: as, b :: bs =>
    let (ib, oa, ob) := argDiffLists as bs
    if a = b then (a :: ib, oa, ob) else (ib, a :: oa, b :: ob)

/-- `computeArgDiffAtRemark` (RemarkDiff.cpp:293-320): positional
argument diff plus the outcome-type comparison. -/
def computeArgDiffAtRemark (RA RB : RemarkInfo) : DiffAtRemark :=
  let (ib, oa, ob) := argDiffLists RA.Args RB.Args
  { BaseRemark := RA
    RemarkTypeDiff :=
      if RA.RemarkType ≠ RB.RemarkType then some (RA.RemarkType, RB.RemarkType)
      else none
    OnlyA := oa
    OnlyB := ob
    InBoth := ib }

/-- The command-line flags of the diff subcommand (RemarkDiff.cpp:42-72)
together with the file-static `OnlyShowArgOrTypeDiffRemarks`
(RemarkDiff.cpp:89), which is initialized to `false` and never assigned
anywhere in the file. -/
structure DiffConfig where
  ShowArgDiffOnly : Bool
  OnlyShowCommonRemarks : Bool
  ShowOnlyDifferentRemarks : Bool
  ShowRemarkTypeDiffOnly : Bool
  OnlyShowArgOrTypeDiffRemarks : Bool
deriving DecidableEq, Repr

/-- The value of the static `OnlyShowArgOrTypeDiffRemarks`
(RemarkDiff.cpp:89) in every run of the tool: it is initialized to
`false` and no statement in RemarkDiff.cpp ever assigns it. -/
def OnlyShowArgOrTypeDiffRemarksValue : Bool := false

/-- `SmallSet<RemarkInfo, 4>::insert`: add the remark unless an equal one
is already present. -/
def insertRemark (r : RemarkInfo) (s : List RemarkInfo) : List RemarkInfo :=
  if r ∈ s then s else r :: s

/-- The exact-match pass of `computeDiffAtLoc` (RemarkDiff.cpp:331-335):
every remark of A that is structurally equal to some remark of B is
marked found. -/
def exactMatchPass (A B : List RemarkInfo) : List RemarkInfo :=
  A.foldl
    (fun found ra =>
      B.foldl (fun f rb => if ra = rb then insertRemark ra f else f) found)
    []

/-- The body of the inner loop of the header-match pass
(RemarkDiff.cpp:340-348): skip a found B remark; pair a same-header B
remark with the current A remark and mark both found.  The accumulator is
the pair list so far and the found set. -/
def headerMatchStepB (ra : RemarkInfo)
    (acc : List (RemarkInfo × RemarkInfo) × List RemarkInfo)
    (rb : RemarkInfo) :
    List (RemarkInfo × RemarkInfo) × List RemarkInfo :=
  if rb ∈ acc.2 then acc
  else if ra.hasSameHeader rb then
    (acc.1 ++ [(ra, rb)], insertRemark rb (insertRemark ra acc.2))
  else acc

/-- The header-match pass of `computeDiffAtLoc` (RemarkDiff.cpp:336-349):
scan A against B among the not-yet-found remarks; note that, as in the
source, the inner loop keeps scanning after a pair is recorded.  Returns
the header-matched pairs and the final found set. -/
def headerMatchPass (A B : List RemarkInfo) (found0 : List RemarkInfo) :
    List (RemarkInfo × RemarkInfo) × List RemarkInfo :=
  A.foldl
    (fun acc ra =>
      if ra ∈ acc.2 then acc else B.foldl (headerMatchStepB ra) acc)
    ([], found0)

/-- `DiffAtLoc` (RemarkDiff.h:114-127): the diff at one debug
location. -/
structure DiffAtLoc where
  Loc : DebugLocation
  OnlyA : List RemarkInfo
  OnlyB : List RemarkInfo
  HasTheSameHeader : List DiffAtRemark
deriving DecidableEq, Repr

/-- `DiffAtLoc::isEmpty` (RemarkDiff.h:122-124). -/
def DiffAtLoc.isEmpty (d : DiffAtLoc) : Bool :=
  d.OnlyA.isEmpty && d.OnlyB.isEmpty && d.HasTheSameHeader.isEmpty

/-- `computeDiffAtLoc` (RemarkDiff.cpp:322-373): the exact-match pass,
the header-match pass, the one-sided leftovers (suppressed by
`-only-show-common-remarks`), and the matched-pair report (skipped
entirely by `-only-show-different-remarks`, otherwise guarded by the
branch ladder of lines 361-372). -/
def computeDiffAtLoc (cfg : DiffConfig) (A B : List RemarkInfo)
    (loc : DebugLocation) : DiffAtLoc :=
  let found0 := exactMatchPass A B
  let pf := headerMatchPass A B found0
  let onlyA :=
    A.filter fun ra => !(decide (ra ∈ pf.2)) && !cfg.OnlyShowCommonRemarks
  let onlyB :=
    B.filter fun rb => !(decide (rb ∈ pf.2)) && !cfg.OnlyShowCommonRemarks
  let same :=
    if cfg.ShowOnlyDifferentRemarks then []
    else
      pf.1.foldl
        (fun l p =>
          if !cfg.OnlyShowArgOrTypeDiffRemarks then
            l ++ [computeArgDiffAtRemark p.1 p.2]
          else if cfg.ShowRemarkTypeDiffOnly &&
              !(p.1.RemarkType == p.2.RemarkType) then
            l ++ [computeArgDiffAtRemark p.1 p.2]
          else if cfg.ShowArgDiffOnly &&
              (p.1.RemarkType == p.2.RemarkType) then
            l ++ [computeArgDiffAtRemark p.1 p.2]
          else l)
        []
  ⟨loc, onlyA, onlyB, same⟩

/-- `MapVector<DebugLocation, SmallVector<RemarkInfo, 4>>::lookup`: the
bucket of a location, empty when absent. -/
def lookupD (m : List (DebugLocation × List RemarkInfo))
    (k : DebugLocation) : List RemarkInfo :=
  match m.find? fun p => p.1 == k with
  | some p => p.2
  | none => []

/-- The `insert`-then-`push_back` of `parseRemarkFile`
(RemarkDiff.cpp:279-280): append the remark to its location's bucket,
creating the bucket at the end of the map when absent. -/
def mapVecInsertAppend (m : List (DebugLocation × List RemarkInfo))
    (k : DebugLocation) (r : RemarkInfo) :
    List (DebugLocation × List RemarkInfo) :=
  match m with
  | [] => [(k, [r])]
  | (k', l) :: rest =>
    if k' = k then (k', l ++ [r]) :: rest
    else (k', l) :: mapVecInsertAppend rest k r

/-- The bucketing key of `parseRemarkFile` (RemarkDiff.cpp:268-278): the
remark's location combined with its function name; a remark without a
location keeps the defaults: empty path, line 0, column 0. -/
def bucketKey (R : Remark) : DebugLocation :=
  match R.Loc with
  | some l => ⟨l.SourceFilePath, R.FunctionName, l.SourceLine, l.SourceColumn⟩
  | none => ⟨"", R.FunctionName, 0, 0⟩

/-- `parseRemarkFile` (RemarkDiff.cpp:259-287) over an already-parsed
remark stream: bucket every filter-accepted remark by its debug location
key. -/
def parseRemarkFile (F : Filters) (remarks : List Remark) :
    List (DebugLocation × List RemarkInfo) :=
  remarks.foldl
    (fun m R =>
      if F.filterRemark R then
        mapVecInsertAppend m (bucketKey R) (RemarkInfo.ofRemark R)
      else m)
    []

/-- `SetVector<DebugLocation>` union of the two maps' keys
(RemarkDiff.cpp:474-478): insertion order, duplicates ignored. -/
def insertUniqueAll (locs : List DebugLocation) : List DebugLocation :=
  locs.foldl (fun acc l => if l ∈ acc then acc else acc ++ [l]) []

/-- `computeDiff` (RemarkDiff.cpp:375-390): diff the two buckets of every
location. -/
def computeDiff (cfg : DiffConfig) (locs : List DebugLocation)
    (mA mB : List (DebugLocation × List RemarkInfo)) : List DiffAtLoc :=
  locs.map fun loc => computeDiffAtLoc cfg (lookupD mA loc) (lookupD mB loc) loc

/-- The diff workflow of `createRemarkDiff` (RemarkDiff.cpp:446-484) over
two already-parsed remark streams: bucket both streams, union their
locations, and diff per location. -/
def remarkDiffPipeline (cfg : DiffConfig) (F : Filters)
    (A B : List Remark) : List DiffAtLoc :=
  let mA := parseRemarkFile F A
  let mB := parseRemarkFile F B
  let locs := insertUniqueAll (mA.map Prod.fst ++ mB.map Prod.fst)
  computeDiff cfg locs mA mB

/-! Concrete inputs used by counterexamples, code-bug evaluations and
witnesses. -/

/-- A filter with no predicates configured. -/
def noFilters : Filters := ⟨none, none, none, none⟩

/-- Diff flags: only `-show-remark-type-diff-only`, the static kept at
its actual value. -/
def c1cfgType : DiffConfig :=
  ⟨false, false, false, true, OnlyShowArgOrTypeDiffRemarksValue⟩

/-- Diff flags: only `-show-arg-diff-only`, the static kept at its actual
value. -/
def c1cfgArg : DiffConfig :=
  ⟨true, false, false, false, OnlyShowArgOrTypeDiffRemarksValue⟩

/-- Diff flags: all options off, the static kept at its actual value. -/
def cfgDefault : DiffConfig :=
  ⟨false, false, false, false, OnlyShowArgOrTypeDiffRemarksValue⟩

/-- A location bucket key for the code-bug evaluations. -/
def locEx : DebugLocation := ⟨"file.c", "foo", 10, 1⟩

/-- A-side remark: missed, argument value 1. -/
def c1ra : RemarkInfo := ⟨"Inline", "foo", "inline", RemarkType.Missed, [⟨"k", "1"⟩]⟩

/-- B-side remark with the same header and the same type as `c1ra` but a
different argument value. -/
def c1rb : RemarkInfo := ⟨"Inline", "foo", "inline", RemarkType.Missed, [⟨"k", "2"⟩]⟩

/-- B-side remark with the same header and the same arguments as `c1ra`
but a different type. -/
def c1rbty : RemarkInfo := ⟨"Inline", "foo", "inline", RemarkType.Passed, [⟨"k", "1"⟩]⟩

/-- A-side remark for the header-match multiplicity evaluation. -/
def c2r : RemarkInfo := ⟨"Inline", "foo", "inline", RemarkType.Missed, []⟩

/-- First B-side remark sharing `c2r`'s header. -/
def c2s1 : RemarkInfo := ⟨"Inline", "foo", "inline", RemarkType.Missed, [⟨"k", "1"⟩]⟩

/-- Second B-side remark sharing `c2r`'s header. -/
def c2s2 : RemarkInfo := ⟨"Inline", "foo", "inline", RemarkType.Missed, [⟨"k", "2"⟩]⟩

/-- A remark of function `b`, seen first in the C4 counterexample. -/
def c4rb : Remark := ⟨"R", "p", "b", RemarkType.Passed, none, []⟩

/-- A remark of function `a`, seen second in the C4 counterexample. -/
def c4ra : Remark := ⟨"R", "p", "a", RemarkType.Passed, none, []⟩

/-- An argument-value matcher that rejects every candidate. -/
def rejectAllMatcher : FilterMatcher := ⟨"x", true, some fun _ => false⟩

/-- A filter whose only predicate is type = Missed, with an
argument-value matcher configured that rejects everything. -/
def c3F : Filters := ⟨none, none, some rejectAllMatcher, some RemarkType.Missed⟩

/-- A remark of type Missed whose argument values the matcher of `c3F`
rejects. -/
def c3R : Remark :=
  ⟨"Inline", "inline", "foo", RemarkType.Missed, none, [⟨"reason", "too-big", none⟩]⟩

/-- A regex engine on which every pattern compiles to the
match-everything predicate (in particular the wildcard `.*`). -/
def wildcardEngine : RegexEngine := ⟨fun _ => some fun _ => true⟩

/-- A regex key matcher whose pattern failed to compile. -/
def badRegexMatcher : FilterMatcher := ⟨"(", true, none⟩

/-- A small remark stream for the self-diff witness. -/
def c7S : List Remark :=
  [⟨"Inline", "inline", "foo", RemarkType.Missed,
      some ⟨"f.c", 10, 1⟩, [⟨"reason", "too-big", none⟩]⟩,
   ⟨"Unroll", "loop-unroll", "bar", RemarkType.Passed, none, []⟩]

/-- Example remark with arguments [(a,1),(b,2)] (spec §8). -/
def c6ra : RemarkInfo :=
  ⟨"R", "f", "p", RemarkType.Passed, [⟨"a", "1"⟩, ⟨"b", "2"⟩]⟩

/-- Example remark with the same header and type as `c6ra` and arguments
[(a,1),(b,3)] (spec §8). -/
def c6rb : RemarkInfo :=
  ⟨"R", "f", "p", RemarkType.Passed, [⟨"a", "1"⟩, ⟨"b", "3"⟩]⟩

/-- A location-less remark of function `foo` for stream A. -/
def c10ra : Remark := ⟨"Inline", "inline", "foo", RemarkType.Missed, none, [⟨"x", "1", none⟩]⟩

/-- A location-less remark of function `foo` for stream B. -/
def c10rb : Remark := ⟨"Inline", "inline", "foo", RemarkType.Passed, none, []⟩

/-! ## Theorems -/

/-- C3: filter evaluation order and short-circuiting.  A present name
matcher that rejects forces rejection; then a present pass matcher that
rejects forces rejection; with a type filter present the result is
exactly type equality and the argument matcher is never consulted (the
result is independent of `ArgFilter`); with no type filter a present
argument matcher decides by "some argument value matches"; with no
predicates every remark is accepted; and a filter whose only predicate is
type = Missed accepts every remark of type Missed whatever the argument
matcher. -/
theorem filterRemark_spec (F : Filters) (R : Remark) :
    ((∃ m, F.RemarkNameFilter = some m ∧ m.fmatch R.RemarkName = false) →
        F.filterRemark R = false) ∧
    ((∀ m, F.RemarkNameFilter = some m → m.fmatch R.RemarkName = true) →
      (∃ m, F.PassNameFilter = some m ∧ m.fmatch R.PassName = false) →
        F.filterRemark R = false) ∧
    (∀ t, F.RemarkTypeFilter = some t →
      ((∀ m, F.RemarkNameFilter = some m → m.fmatch R.RemarkName = true) →
        (∀ m, F.PassNameFilter = some m → m.fmatch R.PassName = true) →
          F.filterRemark R = (t == R.RemarkType)) ∧
      (∀ am, Filters.filterRemark
          ⟨F.RemarkNameFilter, F.PassNameFilter, am, F.RemarkTypeFilter⟩ R =
            F.filterRemark R)) ∧
    (F.RemarkTypeFilter = none →
      (∀ m, F.RemarkNameFilter = some m → m.fmatch R.RemarkName = true) →
      (∀ m, F.PassNameFilter = some m → m.fmatch R.PassName = true) →
      ∀ am, F.ArgFilter = some am →
        F.filterRemark R = R.Args.any fun a => am.fmatch a.Val) ∧
    (F.RemarkNameFilter = none → F.PassNameFilter = none →
      F.ArgFilter = none → F.RemarkTypeFilter = none →
        F.filterRemark R = true) ∧
    (F.RemarkTypeFilter = some RemarkType.Missed →
      F.RemarkNameFilter = none → F.PassNameFilter = none →
      R.RemarkType = RemarkType.Missed → F.filterRemark R = true) := by
  refine ⟨?_, ?_, ?_, ?_, ?_, ?_⟩
  · rintro ⟨m, hm, hf⟩
    simp [Filters.filterRemark, hm, hf]
  · rintro hname ⟨m, hm, hf⟩
    cases hnf : F.RemarkNameFilter with
    | none => simp [Filters.filterRemark, hnf, Filters.filterRemarkPass, hm, hf]
    | some m' =>
      simp [Filters.filterRemark, hnf, hname m' hnf,
        Filters.filterRemarkPass, hm, hf]
  · intro t ht
    constructor
    · intro hname hpass
      cases hnf : F.RemarkNameFilter with
      | none =>
        cases hpf : F.PassNameFilter with
        | none =>
          simp [Filters.filterRemark, hnf, Filters.filterRemarkPass, hpf,
            Filters.filterRemarkTail, ht]
        | some m' =>
          simp [Filters.filterRemark, hnf, Filters.filterRemarkPass, hpf,
            hpass m' hpf, Filters.filterRemarkTail, ht]
      | some m =>
        cases hpf : F.PassNameFilter with
        | none =>
          simp [Filters.filterRemark, hnf, hname m hnf,
            Filters.filterRemarkPass, hpf, Filters.filterRemarkTail, ht]
        | some m' =>
          simp [Filters.filterRemark, hnf, hname m hnf,
            Filters.filterRemarkPass, hpf, hpass m' hpf,
            Filters.filterRemarkTail, ht]
    · intro am
      cases hnf : F.RemarkNameFilter <;> cases hpf : F.PassNameFilter <;>
        simp [Filters.filterRemark, Filters.filterRemarkPass,
          Filters.filterRemarkTail, hnf, hpf, ht]
  · intro ht hname hpass am ham
    cases hnf : F.RemarkNameFilter with
    | none =>
      cases hpf : F.PassNameFilter with
      | none =>
        simp [Filters.filterRemark, hnf, Filters.filterRemarkPass, hpf,
          Filters.filterRemarkTail, ht, ham]
      | some m' =>
        simp [Filters.filterRemark, hnf, Filters.filterRemarkPass, hpf,
          hpass m' hpf, Filters.filterRemarkTail, ht, ham]
    | some m =>
      cases hpf : F.PassNameFilter with
      | none =>
        simp [Filters.filterRemark, hnf, hname m hnf,
          Filters.filterRemarkPass, hpf, Filters.filterRemarkTail, ht, ham]
      | some m' =>
        simp [Filters.filterRemark, hnf, hname m hnf,
          Filters.filterRemarkPass, hpf, hpass m' hpf,
          Filters.filterRemarkTail, ht, ham]
  · intro h1 h2 h3 h4
    simp [Filters.filterRemark, h1, Filters.filterRemarkPass, h2,
      Filters.filterRemarkTail, h3, h4]
  · intro h1 h2 h3 h4
    simp [Filters.filterRemark, h2, Filters.filterRemarkPass, h3,
      Filters.filterRemarkTail, h1, h4]

/-- Witness for C3: the filter whose only predicate is type = Missed
(with an everything-rejecting argument matcher configured) accepts the
concrete Missed remark. -/
theorem filterRemark_spec_witness : Filters.filterRemark c3F c3R = true :=
  (filterRemark_spec c3F c3R).2.2.2.2.2 rfl rfl rfl rfl

/-- C1 (evaluation of the code at the failing inputs): because the static
`OnlyShowArgOrTypeDiffRemarks` is never set, the matched-pair report
ignores both flags: with `-show-remark-type-diff-only` a pair with equal
types is still included, and with `-show-arg-diff-only` a pair with
different types is still included. -/
theorem computeDiffAtLoc_flagsIgnored :
    ((computeDiffAtLoc c1cfgType [c1ra] [c1rb] locEx).HasTheSameHeader.map
        DiffAtRemark.BaseRemark = [c1ra]) ∧
    ((computeDiffAtLoc c1cfgArg [c1ra] [c1rbty] locEx).HasTheSameHeader.map
        DiffAtRemark.BaseRemark = [c1ra]) := by
  constructor <;> rfl

/-- C2 (evaluation of the code at the failing input): the header-match
inner loop does not stop after recording a pair, so the single A-remark
is paired with both same-header B-remarks and appears in two matched
pairs. -/
theorem computeDiffAtLoc_multiPair :
    (computeDiffAtLoc cfgDefault [c2r] [c2s1, c2s2] locEx).HasTheSameHeader.map
        DiffAtRemark.BaseRemark = [c2r, c2r] := by
  rfl

/-- The two loops of `computeArgDiffAtRemark` compute, positionally: the
equal-at-same-index pairs, the unequal A-side entries followed by A's
tail beyond both lengths, and the unequal B-side entries followed by B's
tail. -/
theorem argDiffLists_spec (as bs : List RemarkArgInfo) :
    argDiffLists as bs =
      (((as.zip bs).filter fun p => decide (p.1 = p.2)).map Prod.fst,
        (((as.zip bs).filter fun p => !decide (p.1 = p.2)).map Prod.fst) ++
          as.drop (min as.length bs.length),
        (((as.zip bs).filter fun p => !decide (p.1 = p.2)).map Prod.snd) ++
          bs.drop (min as.length bs.length)) := by
  induction as generalizing bs with
  | nil => cases bs <;> simp [argDiffLists]
  | cons a as ih =>
    cases bs with
    | nil => simp [argDiffLists]
    | cons b bs =>
      simp only [argDiffLists, ih]
      by_cases h : a = b <;>
        simp [h, Nat.succ_min_succ, List.drop_succ_cons]

/-- C6: the argument diff is positional: for every index below both
lengths, an equal (key, value) pair goes to `InBoth` and an unequal pair
goes to `OnlyA`/`OnlyB`; the tail of the longer list is appended wholly
to that side's only-list; `RemarkTypeDiff` is present iff the outcome
types differ; and the spec's concrete example [(a,1),(b,2)] vs
[(a,1),(b,3)] yields InBoth = [(a,1)], OnlyA = [(b,2)], OnlyB = [(b,3)]
and no type diff. -/
theorem computeArgDiffAtRemark_spec (RA RB : RemarkInfo) :
    (computeArgDiffAtRemark RA RB).InBoth =
      ((RA.Args.zip RB.Args).filter fun p => decide (p.1 = p.2)).map Prod.fst ∧
    (computeArgDiffAtRemark RA RB).OnlyA =
      (((RA.Args.zip RB.Args).filter fun p => !decide (p.1 = p.2)).map
          Prod.fst) ++ RA.Args.drop (min RA.Args.length RB.Args.length) ∧
    (computeArgDiffAtRemark RA RB).OnlyB =
      (((RA.Args.zip RB.Args).filter fun p => !decide (p.1 = p.2)).map
          Prod.snd) ++ RB.Args.drop (min RA.Args.length RB.Args.length) ∧
    ((computeArgDiffAtRemark RA RB).RemarkTypeDiff.isSome = true ↔
      RA.RemarkType ≠ RB.RemarkType) ∧
    computeArgDiffAtRemark c6ra c6rb =
      { BaseRemark := c6ra
        RemarkTypeDiff := none
        OnlyA := [⟨"b", "2"⟩]
        OnlyB := [⟨"b", "3"⟩]
        InBoth := [⟨"a", "1"⟩] } := by
  refine ⟨?_, ?_, ?_, ?_, by decide⟩
  · simp [computeArgDiffAtRemark, argDiffLists_spec]
  · simp [computeArgDiffAtRemark, argDiffLists_spec]
  · simp [computeArgDiffAtRemark, argDiffLists_spec]
  · by_cases h : RA.RemarkType = RB.RemarkType <;>
      simp [computeArgDiffAtRemark, h]

/-- `charListLt` is transitive. -/
theorem charListLt_trans :
    ∀ as bs cs, charListLt as bs = true → charListLt bs cs = true →
      charListLt as cs = true := by
  intro as
  induction as with
  | nil =>
    intro bs cs h1 h2
    cases cs with
    | nil =>
      cases bs with
      | nil => simp [charListLt] at h1
      | cons b bs' => simp [charListLt] at h2
    | cons c cs' => simp [charListLt]
  | cons a as ih =>
    intro bs cs h1 h2
    cases bs with
    | nil => simp [charListLt] at h1
    | cons b bs' =>
      cases cs with
      | nil => simp [charListLt] at h2
      | cons c cs' =>
        rw [charListLt] at h1 h2 ⊢
        by_cases hab : a = b
        · subst hab
          rw [if_pos rfl] at h1
          by_cases hac : a = c
          · subst hac
            rw [if_pos rfl] at h2 ⊢
            exact ih bs' cs' h1 h2
          · rw [if_neg hac] at h2 ⊢
            exact h2
        · rw [if_neg hab] at h1
          have h1' : a.toNat < b.toNat := of_decide_eq_true h1
          by_cases hbc : b = c
          · subst hbc
            rw [if_neg hab]
            exact h1
          · rw [if_neg hbc] at h2
            have h2' : b.toNat < c.toNat := of_decide_eq_true h2
            have hac : a ≠ c := by
              intro he
              subst he
              omega
            rw [if_neg hac]
            exact decide_eq_true (by omega)

/-- `charListLt` is trichotomous. -/
theorem charListLt_trichotomy :
    ∀ as bs, charListLt as bs = true ∨ as = bs ∨ charListLt bs as = true := by
  intro as
  induction as with
  | nil =>
    intro bs
    cases bs with
    | nil => exact Or.inr (Or.inl rfl)
    | cons b bs' => exact Or.inl (by simp [charListLt])
  | cons a as ih =>
    intro bs
    cases bs with
    | nil => exact Or.inr (Or.inr (by simp [charListLt]))
    | cons b bs' =>
      by_cases hab : a = b
      · subst hab
        rcases ih bs' with h | h | h
        · exact Or.inl (by rw [charListLt, if_pos rfl]; exact h)
        · exact Or.inr (Or.inl (by rw [h]))
        · exact Or.inr (Or.inr (by rw [charListLt, if_pos rfl]; exact h))
      · rcases Nat.lt_trichotomy a.toNat b.toNat with h | h | h
        · exact Or.inl (by rw [charListLt, if_neg hab]; exact decide_eq_true h)
        · exact absurd (Char.eq_of_val_eq (UInt32.ext h)) hab
        · have hba : b ≠ a := fun he => hab he.symm
          exact Or.inr (Or.inr
            (by rw [charListLt, if_neg hba]; exact decide_eq_true h))

/-- `strLt` is transitive. -/
theorem strLt_trans {a b c : String} (h1 : strLt a b = true)
    (h2 : strLt b c = true) : strLt a c = true :=
  charListLt_trans a.data b.data c.data h1 h2

/-- `strLt` is trichotomous. -/
theorem strLt_trichotomy (a b : String) :
    strLt a b = true ∨ a = b ∨ strLt b a = true := by
  rcases charListLt_trichotomy a.data b.data with h | h | h
  · exact Or.inl h
  · exact Or.inr (Or.inl (congrArg String.mk h))
  · exact Or.inr (Or.inr h)

/-- Every entry of `stdMapIncr m k` carries a key of `m` or the key
`k`. -/
theorem mem_stdMapIncr_keys (k : String) :
    ∀ (m : List (String × Nat)) (p : String × Nat), p ∈ stdMapIncr m k →
      p.1 ∈ m.map Prod.fst ∨ p.1 = k := by
  intro m
  induction m with
  | nil =>
    intro p hp
    rw [stdMapIncr] at hp
    have hpe := List.mem_singleton.mp hp
    subst hpe
    exact Or.inr rfl
  | cons head rest ih =>
    obtain ⟨k₁, v₁⟩ := head
    intro p hp
    rw [stdMapIncr] at hp
    by_cases h1 : strLt k k₁ = true
    · rw [if_pos h1] at hp
      rcases List.mem_cons.mp hp with hpe | hp'
      · subst hpe
        exact Or.inr rfl
      rcases List.mem_cons.mp hp' with hpe | hp''
      · subst hpe
        exact Or.inl (by simp)
      · exact Or.inl (List.mem_map_of_mem Prod.fst (List.mem_cons_of_mem _ hp''))
    · rw [if_neg h1] at hp
      by_cases h2 : k = k₁
      · rw [if_pos h2] at hp
        rcases List.mem_cons.mp hp with hpe | hp'
        · subst hpe
          exact Or.inl (by simp)
        · exact Or.inl (List.mem_map_of_mem Prod.fst (List.mem_cons_of_mem _ hp'))
      · rw [if_neg h2] at hp
        rcases List.mem_cons.mp hp with hpe | hp'
        · subst hpe
          exact Or.inl (by simp)
        · rcases ih p hp' with h | h
          · exact Or.inl (by rw [List.map_cons]; exact List.mem_cons_of_mem _ h)
          · exact Or.inr h

/-- `stdMapIncr` preserves strict key-sortedness (the `std::map`
invariant). -/
theorem stdMapIncr_sorted (k : String) :
    ∀ (m : List (String × Nat)),
      m.Pairwise (fun p q => strLt p.1 q.1 = true) →
        (stdMapIncr m k).Pairwise (fun p q => strLt p.1 q.1 = true) := by
  intro m
  induction m with
  | nil =>
    intro _
    rw [stdMapIncr]
    exact List.pairwise_singleton _ _
  | cons head rest ih =>
    obtain ⟨k₁, v₁⟩ := head
    intro h
    rw [List.pairwise_cons] at h
    obtain ⟨hq, hrest⟩ := h
    rw [stdMapIncr]
    by_cases h1 : strLt k k₁ = true
    · rw [if_pos h1]
      refine List.pairwise_cons.mpr ⟨?_, List.pairwise_cons.mpr ⟨hq, hrest⟩⟩
      intro p hp
      rcases List.mem_cons.mp hp with hpe | hp'
      · subst hpe
        exact h1
      · exact strLt_trans h1 (hq p hp')
    · rw [if_neg h1]
      by_cases h2 : k = k₁
      · rw [if_pos h2]
        exact List.pairwise_cons.mpr ⟨hq, hrest⟩
      · rw [if_neg h2]
        refine List.pairwise_cons.mpr ⟨?_, ih hrest⟩
        intro p hp
        rcases mem_stdMapIncr_keys k rest p hp with h | h
        · obtain ⟨p', hp', he⟩ := List.mem_map.mp h
          rw [← he]
          exact hq p' hp'
        · rw [h]
          rcases strLt_trichotomy k k₁ with hlt | heq | hgt
          · exact absurd hlt h1
          · exact absurd heq h2
          · exact hgt

/-- A key occurs in `stdMapIncr m k` iff it occurs in `m` or is `k`. -/
theorem exists_mem_stdMapIncr (k k' : String) :
    ∀ (m : List (String × Nat)),
      (∃ c, (k', c) ∈ stdMapIncr m k) ↔ (∃ c, (k', c) ∈ m) ∨ k' = k := by
  intro m
  induction m with
  | nil =>
    rw [stdMapIncr]
    constructor
    · rintro ⟨c, hc⟩
      exact Or.inr (congrArg Prod.fst (List.mem_singleton.mp hc))
    · rintro (⟨c, hc⟩ | rfl)
      · exact absurd hc (List.not_mem_nil _)
      · exact ⟨1, List.mem_singleton.mpr rfl⟩
  | cons head rest ih =>
    obtain ⟨k₁, v₁⟩ := head
    rw [stdMapIncr]
    by_cases h1 : strLt k k₁ = true
    · rw [if_pos h1]
      constructor
      · rintro ⟨c, hc⟩
        rcases List.mem_cons.mp hc with hce | hc'
        · exact Or.inr (congrArg Prod.fst hce)
        · exact Or.inl ⟨c, hc'⟩
      · rintro (⟨c, hc⟩ | rfl)
        · exact ⟨c, List.mem_cons_of_mem _ hc⟩
        · exact ⟨1, List.mem_cons_self _ _⟩
    · rw [if_neg h1]
      by_cases h2 : k = k₁
      · rw [if_pos h2]
        constructor
        · rintro ⟨c, hc⟩
          rcases List.mem_cons.mp hc with hce | hc'
          · have hk : k' = k₁ := congrArg Prod.fst hce
            exact Or.inl ⟨v₁, by rw [hk]; exact List.mem_cons_self _ _⟩
          · exact Or.inl ⟨c, List.mem_cons_of_mem _ hc'⟩
        · rintro (⟨c, hc⟩ | rfl)
          · rcases List.mem_cons.mp hc with hce | hc'
            · have hk : k' = k₁ := congrArg Prod.fst hce
              exact ⟨v₁ + 1, by rw [hk]; exact List.mem_cons_self _ _⟩
            · exact ⟨c, List.mem_cons_of_mem _ hc'⟩
          · exact ⟨v₁ + 1, by rw [h2]; exact List.mem_cons_self _ _⟩
      · rw [if_neg h2]
        constructor
        · rintro ⟨c, hc⟩
          rcases List.mem_cons.mp hc with hce | hc'
          · exact Or.inl ⟨c, by rw [hce]; exact List.mem_cons_self _ _⟩
          · rcases ih.mp ⟨c, hc'⟩ with ⟨c', hc''⟩ | he
            · exact Or.inl ⟨c', List.mem_cons_of_mem _ hc''⟩
            · exact Or.inr he
        · rintro (⟨c, hc⟩ | rfl)
          · rcases List.mem_cons.mp hc with hce | hc'
            · exact ⟨c, by rw [hce]; exact List.mem_cons_self _ _⟩
            · obtain ⟨c', hc''⟩ := ih.mpr (Or.inl ⟨c, hc'⟩)
              exact ⟨c', List.mem_cons_of_mem _ hc''⟩
          · obtain ⟨c', hc''⟩ := ih.mpr (Or.inr rfl)
            exact ⟨c', List.mem_cons_of_mem _ hc''⟩

/-- `stdMapIncr` increases the total count by exactly one. -/
theorem stdMapIncr_sum (k : String) :
    ∀ (m : List (String × Nat)),
      ((stdMapIncr m k).map Prod.snd).sum = ((m.map Prod.snd).sum) + 1 := by
  intro m
  induction m with
  | nil =>
    rw [stdMapIncr]
    simp
  | cons head rest ih =>
    obtain ⟨k₁, v₁⟩ := head
    rw [stdMapIncr]
    by_cases h1 : strLt k k₁ = true
    · rw [if_pos h1]
      simp
      omega
    · rw [if_neg h1]
      by_cases h2 : k = k₁
      · rw [if_pos h2]
        simp
        omega
      · rw [if_neg h2]
        simp [ih]
        omega

/-- The existence-counting collection loop acts on the count map as a
pure fold. -/
theorem collectFold_map (g : GroupBy) (F : Filters) :
    ∀ (remarks : List Remark) (m0 : List (String × Nat)),
      (remarks.foldl (fun C R => if F.filterRemark R then C.collect R else C)
          (⟨g, m0⟩ : RemarkCounter)).CountedByRemarksMap =
        remarks.foldl
          (fun m R =>
            if F.filterRemark R then
              match getGroupByKey g R with
              | none => m
              | some k => stdMapIncr m k
            else m)
          m0 := by
  intro remarks
  induction remarks with
  | nil =>
    intro m0
    rfl
  | cons R rs ih =>
    intro m0
    simp only [List.foldl_cons]
    by_cases hf : F.filterRemark R = true
    · rw [if_pos hf, if_pos hf]
      cases hk : getGroupByKey g R with
      | none => simpa [RemarkCounter.collect, hk] using ih m0
      | some k => simpa [RemarkCounter.collect, hk] using ih (stdMapIncr m0 k)
    · rw [if_neg hf, if_neg hf]
      exact ih m0

/-- The pure count-map fold adds one to the total count for every
accepted remark with a present group key. -/
theorem mapFold_sum (g : GroupBy) (F : Filters) :
    ∀ (remarks : List Remark) (m0 : List (String × Nat)),
      ((remarks.foldl
          (fun m R =>
            if F.filterRemark R then
              match getGroupByKey g R with
              | none => m
              | some k => stdMapIncr m k
            else m)
          m0).map Prod.snd).sum =
        (m0.map Prod.snd).sum +
          (remarks.filter fun R =>
            F.filterRemark R && (getGroupByKey g R).isSome).length := by
  intro remarks
  induction remarks with
  | nil =>
    intro m0
    simp
  | cons R rs ih =>
    intro m0
    by_cases hf : F.filterRemark R = true
    · cases hk : getGroupByKey g R with
      | none =>
        simp only [List.foldl_cons, List.filter_cons, hf, hk]
        simp [ih m0]
      | some k =>
        simp only [List.foldl_cons, List.filter_cons, hf, hk]
        simp [ih (stdMapIncr m0 k), stdMapIncr_sum]
        omega
    · simp only [Bool.not_eq_true] at hf
      simp only [List.foldl_cons, List.filter_cons, hf]
      simp [ih m0]

/-- The pure count-map fold preserves strict key-sortedness. -/
theorem mapFold_sorted (g : GroupBy) (F : Filters) :
    ∀ (remarks : List Remark) (m0 : List (String × Nat)),
      m0.Pairwise (fun p q => strLt p.1 q.1 = true) →
        ((remarks.foldl
            (fun m R =>
              if F.filterRemark R then
                match getGroupByKey g R with
                | none => m
                | some k => stdMapIncr m k
              else m)
            m0).Pairwise fun p q => strLt p.1 q.1 = true) := by
  intro remarks
  induction remarks with
  | nil =>
    intro m0 h
    exact h
  | cons R rs ih =>
    intro m0 h
    simp only [List.foldl_cons]
    by_cases hf : F.filterRemark R = true
    · cases hk : getGroupByKey g R with
      | none =>
        simp only [hf, hk, if_true]
        exact ih m0 h
      | some k =>
        simp only [hf, hk, if_true]
        exact ih (stdMapIncr m0 k) (stdMapIncr_sorted k m0 h)
    · simp only [Bool.not_eq_true] at hf
      simp only [hf, Bool.false_eq_true, if_false]
      exact ih m0 h

/-- A key occurs in the folded count map iff it occurs in the initial
map or is the group key of some accepted remark of the stream. -/
theorem mapFold_keys (g : GroupBy) (F : Filters) :
    ∀ (remarks : List Remark) (m0 : List (String × Nat)) (k : String),
      (∃ c, (k, c) ∈
          remarks.foldl
            (fun m R =>
              if F.filterRemark R then
                match getGroupByKey g R with
                | none => m
                | some k => stdMapIncr m k
              else m)
            m0) ↔
        (∃ c, (k, c) ∈ m0) ∨
          ∃ R ∈ remarks, F.filterRemark R = true ∧ getGroupByKey g R = some k := by
  intro remarks
  induction remarks with
  | nil =>
    intro m0 k
    simp
  | cons R rs ih =>
    intro m0 k
    simp only [List.foldl_cons]
    by_cases hf : F.filterRemark R = true
    · cases hk : getGroupByKey g R with
      | none =>
        simp only [hf, hk, if_true]
        rw [ih m0 k]
        constructor
        · rintro (h | ⟨R', hR', h1, h2⟩)
          · exact Or.inl h
          · exact Or.inr ⟨R', List.mem_cons_of_mem _ hR', h1, h2⟩
        · rintro (h | ⟨R', hR', h1, h2⟩)
          · exact Or.inl h
          · rcases List.mem_cons.mp hR' with he | hm
            · subst he
              rw [hk] at h2
              exact absurd h2 (by simp)
            · exact Or.inr ⟨R', hm, h1, h2⟩
      | some k' =>
        simp only [hf, hk, if_true]
        rw [ih (stdMapIncr m0 k') k, exists_mem_stdMapIncr]
        constructor
        · rintro ((h | he) | h)
          · exact Or.inl h
          · exact Or.inr ⟨R, List.mem_cons_self _ _, hf, by rw [hk, he]⟩
          · obtain ⟨R', hR', h1, h2⟩ := h
            exact Or.inr ⟨R', List.mem_cons_of_mem _ hR', h1, h2⟩
        · rintro (h | ⟨R', hR', h1, h2⟩)
          · exact Or.inl (Or.inl h)
          · rcases List.mem_cons.mp hR' with he | hm
            · subst he
              rw [hk] at h2
              exact Or.inl (Or.inr (Option.some.inj h2).symm)
            · exact Or.inr ⟨R', hm, h1, h2⟩
    · simp only [Bool.not_eq_true] at hf
      simp only [hf, Bool.false_eq_true, if_false]
      rw [ih m0 k]
      constructor
      · rintro (h | ⟨R', hR', h1, h2⟩)
        · exact Or.inl h
        · exact Or.inr ⟨R', List.mem_cons_of_mem _ hR', h1, h2⟩
      · rintro (h | ⟨R', hR', h1, h2⟩)
        · exact Or.inl h
        · rcases List.mem_cons.mp hR' with he | hm
          · subst he
            rw [hf] at h1
            exact absurd h1 (by simp)
          · exact Or.inr ⟨R', hm, h1, h2⟩

/-- C4 (amended): the ExistenceCounter's report lists one row per
distinct group key seen on a filter-accepted remark, ordered by
strictly increasing (lexicographic) group key — the `std::map` iteration
order — not by first-seen insertion order. -/
theorem remarkCounter_report_sorted (g : GroupBy) (F : Filters)
    (remarks : List Remark) :
    ((useCollectRemark g F remarks).CountedByRemarksMap.Pairwise
        fun p q => strLt p.1 q.1 = true) ∧
    ∀ k, (∃ c, (k, c) ∈ (useCollectRemark g F remarks).CountedByRemarksMap) ↔
      ∃ R ∈ remarks, F.filterRemark R = true ∧ getGroupByKey g R = some k := by
  constructor
  · rw [useCollectRemark, collectFold_map]
    exact mapFold_sorted g F remarks [] List.Pairwise.nil
  · intro k
    rw [useCollectRemark, collectFold_map, mapFold_keys]
    simp

/-- C4 (counterexample): collecting function `b` before function `a`
under per-function grouping produces the key-sorted report
[(a,1),(b,1)], not the first-seen-order report [(b,1),(a,1)] that the
claim demands. -/
theorem remarkCounter_report_not_firstSeen :
    (useCollectRemark GroupBy.PER_FUNCTION noFilters
        [c4rb, c4ra]).CountedByRemarksMap ≠
      firstSeenReport GroupBy.PER_FUNCTION noFilters [c4rb, c4ra] := by
  decide

/-- C8: the sum of the ExistenceCounter's per-group counts equals the
number of stream remarks that pass the filter and resolve to a
non-absent group key. -/
theorem remarkCounter_sum (g : GroupBy) (F : Filters)
    (remarks : List Remark) :
    ((useCollectRemark g F remarks).CountedByRemarksMap.map Prod.snd).sum =
      (remarks.filter fun R =>
        F.filterRemark R && (getGroupByKey g R).isSome).length := by
  rw [useCollectRemark, collectFold_map, mapFold_sum]
  simp

/-- Membership in a `SmallSet` insertion. -/
theorem mem_insertRemark (x r : RemarkInfo) (s : List RemarkInfo) :
    x ∈ insertRemark r s ↔ x = r ∨ x ∈ s := by
  rw [insertRemark]
  by_cases h : r ∈ s
  · rw [if_pos h]
    constructor
    · exact Or.inr
    · rintro (rfl | hx)
      · exact h
      · exact hx
  · rw [if_neg h]
    exact List.mem_cons

/-- The exact-match inner loop only grows the found set. -/
theorem exact_inner_mono (ra x : RemarkInfo) :
    ∀ (B : List RemarkInfo) (f : List RemarkInfo), x ∈ f →
      x ∈ B.foldl (fun f rb => if ra = rb then insertRemark ra f else f) f := by
  intro B
  induction B with
  | nil => intro f hf; exact hf
  | cons b bs ih =>
    intro f hf
    rw [List.foldl_cons]
    by_cases h : ra = b
    · rw [if_pos h]
      exact ih _ ((mem_insertRemark x ra f).mpr (Or.inr hf))
    · rw [if_neg h]
      exact ih _ hf

/-- The exact-match inner loop marks `ra` found when it occurs in `B`. -/
theorem exact_inner_self (ra : RemarkInfo) :
    ∀ (B : List RemarkInfo) (f : List RemarkInfo), ra ∈ B →
      ra ∈ B.foldl (fun f rb => if ra = rb then insertRemark ra f else f) f := by
  intro B
  induction B with
  | nil => intro f hf; exact absurd hf (List.not_mem_nil _)
  | cons b bs ih =>
    intro f hf
    rw [List.foldl_cons]
    by_cases h : ra = b
    · rw [if_pos h]
      exact exact_inner_mono ra ra bs _
        ((mem_insertRemark ra ra f).mpr (Or.inl rfl))
    · rw [if_neg h]
      rcases List.mem_cons.mp hf with he | hm
      · exact absurd he h
      · exact ih f hm

/-- The exact-match outer loop only grows the found set. -/
theorem exact_outer_mono (B : List RemarkInfo) :
    ∀ (A : List RemarkInfo) (f : List RemarkInfo) (x : RemarkInfo), x ∈ f →
      x ∈ A.foldl
        (fun found ra =>
          B.foldl (fun f rb => if ra = rb then insertRemark ra f else f)
            found)
        f := by
  intro A
  induction A with
  | nil => intro f x hx; exact hx
  | cons a as ih =>
    intro f x hx
    rw [List.foldl_cons]
    exact ih _ x (exact_inner_mono a x B f hx)

/-- Every remark occurring in both streams is marked found by the
exact-match pass. -/
theorem mem_exactMatchPass (B : List RemarkInfo) :
    ∀ (A : List RemarkInfo) (f : List RemarkInfo) (x : RemarkInfo),
      x ∈ A → x ∈ B →
        x ∈ A.foldl
          (fun found ra =>
            B.foldl (fun f rb => if ra = rb then insertRemark ra f else f)
              found)
          f := by
  intro A
  induction A with
  | nil => intro f x hx _; exact absurd hx (List.not_mem_nil _)
  | cons a as ih =>
    intro f x hxA hxB
    rw [List.foldl_cons]
    rcases List.mem_cons.mp hxA with he | hm
    · subst he
      exact exact_outer_mono B as _ x (exact_inner_self x B f hxB)
    · exact ih _ x hm hxB

/-- A remark of the self-diffed stream is found after the exact-match
pass. -/
theorem mem_exactMatchPass_self (R : List RemarkInfo) (x : RemarkInfo)
    (hx : x ∈ R) : x ∈ exactMatchPass R R :=
  mem_exactMatchPass R R [] x hx hx

/-- The header-match pass does nothing when every A-remark is already
found. -/
theorem headerMatchPass_all_found (A B : List RemarkInfo)
    (f0 : List RemarkInfo) (h : ∀ a ∈ A, a ∈ f0) :
    headerMatchPass A B f0 = ([], f0) := by
  rw [headerMatchPass]
  have : ∀ (l : List RemarkInfo)
      (acc : List (RemarkInfo × RemarkInfo) × List RemarkInfo),
      (∀ a ∈ l, a ∈ acc.2) →
        l.foldl
          (fun acc ra =>
            if ra ∈ acc.2 then acc else B.foldl (headerMatchStepB ra) acc)
          acc = acc := by
    intro l
    induction l with
    | nil => intro acc _; rfl
    | cons a as ih =>
      intro acc hacc
      rw [List.foldl_cons, if_pos (hacc a (List.mem_cons_self _ _))]
      exact ih acc fun a' ha' => hacc a' (List.mem_cons_of_mem _ ha')
  exact this A ([], f0) h

/-- Diffing a remark list against itself at one location yields an empty
diff, whatever the flags. -/
theorem computeDiffAtLoc_self (cfg : DiffConfig) (A : List RemarkInfo)
    (loc : DebugLocation) : (computeDiffAtLoc cfg A A loc).isEmpty = true := by
  have hfound : ∀ a ∈ A, a ∈ exactMatchPass A A := fun a ha =>
    mem_exactMatchPass_self A a ha
  rw [computeDiffAtLoc, DiffAtLoc.isEmpty]
  rw [headerMatchPass_all_found A A (exactMatchPass A A) hfound]
  have hfilter :
      (A.filter fun ra =>
        !(decide (ra ∈ (((
          [] : List (RemarkInfo × RemarkInfo)), exactMatchPass A A)).2)) &&
          !cfg.OnlyShowCommonRemarks) = [] := by
    rw [List.filter_eq_nil_iff]
    intro a ha
    simp [hfound a ha]
  simp only [hfilter]
  cases cfg.ShowOnlyDifferentRemarks <;> simp

/-- C7: diffing a remark stream against an identical copy of itself
yields, at every location of the union, a diff whose OnlyA, OnlyB and
matched-pair groups are all empty. -/
theorem remarkDiff_self_empty (cfg : DiffConfig) (F : Filters)
    (S : List Remark) :
    (remarkDiffPipeline cfg F S S).all DiffAtLoc.isEmpty = true := by
  rw [remarkDiffPipeline, computeDiff, List.all_eq_true]
  intro d hd
  obtain ⟨loc, _, rfl⟩ := List.mem_map.mp hd
  exact computeDiffAtLoc_self cfg _ loc

/-- Lookup in the empty bucket map. -/
theorem lookupD_nil (k : DebugLocation) : lookupD [] k = [] := rfl

/-- Lookup steps over one bucket entry. -/
theorem lookupD_cons (k₁ : DebugLocation) (l : List RemarkInfo)
    (rest : List (DebugLocation × List RemarkInfo)) (k' : DebugLocation) :
    lookupD ((k₁, l) :: rest) k' = if k₁ = k' then l else lookupD rest k' := by
  by_cases h : k₁ = k'
  · subst h
    simp [lookupD, List.find?]
  · have hbe : (k₁ == k') = false := beq_eq_false_iff_ne.mpr h
    simp [lookupD, List.find?, hbe, h]

/-- Looking up after a `MapVector` append: the bucket of the inserted key
grows by the remark, other buckets are unchanged. -/
theorem lookupD_mapVecInsertAppend (k : DebugLocation) (r : RemarkInfo)
    (k' : DebugLocation) :
    ∀ (m : List (DebugLocation × List RemarkInfo)),
      lookupD (mapVecInsertAppend m k r) k' =
        if k' = k then lookupD m k' ++ [r] else lookupD m k' := by
  intro m
  induction m with
  | nil =>
    rw [mapVecInsertAppend]
    by_cases h : k' = k
    · subst h
      rw [if_pos rfl, lookupD_cons, if_pos rfl, lookupD_nil]
      rfl
    · rw [if_neg h, lookupD_cons, if_neg fun he => h he.symm]
  | cons head rest ih =>
    obtain ⟨k₁, l⟩ := head
    rw [mapVecInsertAppend]
    by_cases h1 : k₁ = k
    · subst h1
      rw [if_pos rfl]
      by_cases h2 : k' = k₁
      · subst h2
        rw [lookupD_cons, if_pos rfl, if_pos rfl, lookupD_cons, if_pos rfl]
      · rw [lookupD_cons, if_neg fun he => h2 he.symm, if_neg h2,
          lookupD_cons, if_neg fun he => h2 he.symm]
    · rw [if_neg h1]
      by_cases h2 : k₁ = k'
      · rw [lookupD_cons, if_pos h2, if_neg fun he => h1 (h2.trans he),
          lookupD_cons, if_pos h2]
      · rw [lookupD_cons, if_neg h2, ih]
        by_cases h3 : k' = k
        · rw [if_pos h3, if_pos h3, lookupD_cons, if_neg h2]
        · rw [if_neg h3, if_neg h3, lookupD_cons, if_neg h2]

/-- The location buckets built by `parseRemarkFile`: the bucket of a key
collects, in stream order, exactly the accepted remarks whose bucketing
key is that key. -/
theorem parseRemarkFile_lookup (F : Filters) (key : DebugLocation) :
    ∀ (remarks : List Remark) (m : List (DebugLocation × List RemarkInfo)),
      lookupD
          (remarks.foldl
            (fun m R =>
              if F.filterRemark R then
                mapVecInsertAppend m (bucketKey R) (RemarkInfo.ofRemark R)
              else m)
            m)
          key =
        lookupD m key ++
          ((remarks.filter fun R =>
              F.filterRemark R && (bucketKey R == key)).map
            RemarkInfo.ofRemark) := by
  intro remarks
  induction remarks with
  | nil =>
    intro m
    simp
  | cons R rs ih =>
    intro m
    rw [List.foldl_cons, List.filter_cons]
    by_cases hf : F.filterRemark R = true
    · rw [if_pos hf]
      rw [ih (mapVecInsertAppend m (bucketKey R) (RemarkInfo.ofRemark R))]
      rw [lookupD_mapVecInsertAppend (bucketKey R) (RemarkInfo.ofRemark R) key m]
      by_cases hk : bucketKey R = key
      · have hbeq : (F.filterRemark R && (bucketKey R == key)) = true := by
          simp [hf, hk]
        rw [hbeq, if_pos hk.symm]
        simp
      · have hbeq : (F.filterRemark R && (bucketKey R == key)) = false := by
          simp [hf, hk]
        rw [hbeq, if_neg fun he => hk he.symm]
        simp
    · rw [if_neg hf]
      have hbeq : (F.filterRemark R && (bucketKey R == key)) = false := by
        simp [Bool.not_eq_true] at hf
        simp [hf]
      rw [hbeq]
      simp only [Bool.false_eq_true, if_false]
      exact ih m

/-- The bucket content of `parseRemarkFile` from the empty map. -/
theorem parseRemarkFile_lookup_nil (F : Filters) (key : DebugLocation)
    (remarks : List Remark) :
    lookupD (parseRemarkFile F remarks) key =
      (remarks.filter fun R =>
        F.filterRemark R && (bucketKey R == key)).map RemarkInfo.ofRemark := by
  rw [parseRemarkFile, parseRemarkFile_lookup F key remarks []]
  rfl

/-- A non-empty bucket's key occurs among the map's keys. -/
theorem lookupD_ne_nil_mem (m : List (DebugLocation × List RemarkInfo))
    (k : DebugLocation) (h : lookupD m k ≠ []) : k ∈ m.map Prod.fst := by
  rw [lookupD] at h
  cases hf : m.find? fun p => p.1 == k with
  | none => rw [hf] at h; exact absurd rfl h
  | some p =>
    have hp := List.find?_some hf
    have hm := List.mem_of_find?_eq_some hf
    have : p.1 = k := by simpa using hp
    rw [← this]
    exact List.mem_map_of_mem Prod.fst hm

/-- Membership in an insertion-ordered unique-accumulating fold. -/
theorem mem_foldl_insertUnique {α : Type} [DecidableEq α] :
    ∀ (l acc : List α) (x : α),
      (x ∈ l.foldl (fun acc k => if k ∈ acc then acc else acc ++ [k]) acc) ↔
        x ∈ acc ∨ x ∈ l := by
  intro l
  induction l with
  | nil =>
    intro acc x
    simp
  | cons a as ih =>
    intro acc x
    rw [List.foldl_cons]
    by_cases h : a ∈ acc
    · rw [if_pos h, ih]
      constructor
      · rintro (hx | hx)
        · exact Or.inl hx
        · exact Or.inr (List.mem_cons_of_mem _ hx)
      · rintro (hx | hx)
        · exact Or.inl hx
        · rcases List.mem_cons.mp hx with rfl | hx'
          · exact Or.inl h
          · exact Or.inr hx'
    · rw [if_neg h, ih]
      constructor
      · rintro (hx | hx)
        · rcases List.mem_append.mp hx with hx' | hx'
          · exact Or.inl hx'
          · exact Or.inr (List.mem_cons.mpr
              (Or.inl (List.mem_singleton.mp hx')))
        · exact Or.inr (List.mem_cons_of_mem _ hx)
      · rintro (hx | hx)
        · exact Or.inl (List.mem_append.mpr (Or.inl hx))
        · rcases List.mem_cons.mp hx with rfl | hx'
          · exact Or.inl (List.mem_append.mpr (Or.inr (List.mem_singleton.mpr rfl)))
          · exact Or.inr hx'

/-- The location of a per-location diff is the bucketing key it was
computed for. -/
theorem computeDiffAtLoc_Loc (cfg : DiffConfig) (A B : List RemarkInfo)
    (loc : DebugLocation) : (computeDiffAtLoc cfg A B loc).Loc = loc := rfl

/-- C10: a filter-accepted remark without a source location is not
excluded from the diff workflow: it lands in the bucket of the default
location (empty path, line 0, column 0, combined with its function
name), and the pipeline produces the diff of the two streams' buckets at
exactly that default location, so location-less remarks of the same
function from A and B are diffed against each other there. -/
theorem parseRemarkFile_noLoc (cfg : DiffConfig) (F : Filters)
    (A B : List Remark) (rA rB : Remark)
    (hA : rA ∈ A) (hB : rB ∈ B)
    (hfA : F.filterRemark rA = true) (hfB : F.filterRemark rB = true)
    (hlA : rA.Loc = none) (hlB : rB.Loc = none)
    (hfn : rB.FunctionName = rA.FunctionName) :
    RemarkInfo.ofRemark rA ∈
        lookupD (parseRemarkFile F A) ⟨"", rA.FunctionName, 0, 0⟩ ∧
    RemarkInfo.ofRemark rB ∈
        lookupD (parseRemarkFile F B) ⟨"", rA.FunctionName, 0, 0⟩ ∧
    ∃ d ∈ remarkDiffPipeline cfg F A B,
      d.Loc = ⟨"", rA.FunctionName, 0, 0⟩ ∧
      d = computeDiffAtLoc cfg
            (lookupD (parseRemarkFile F A) ⟨"", rA.FunctionName, 0, 0⟩)
            (lookupD (parseRemarkFile F B) ⟨"", rA.FunctionName, 0, 0⟩)
            ⟨"", rA.FunctionName, 0, 0⟩ := by
  have hkA : bucketKey rA = ⟨"", rA.FunctionName, 0, 0⟩ := by
    rw [bucketKey, hlA]
  have hkB : bucketKey rB = ⟨"", rA.FunctionName, 0, 0⟩ := by
    rw [bucketKey, hlB, hfn]
  have hmemA : RemarkInfo.ofRemark rA ∈
      lookupD (parseRemarkFile F A) ⟨"", rA.FunctionName, 0, 0⟩ := by
    rw [parseRemarkFile_lookup_nil]
    exact List.mem_map_of_mem RemarkInfo.ofRemark
      (List.mem_filter.mpr ⟨hA, by simp [hfA, hkA]⟩)
  have hmemB : RemarkInfo.ofRemark rB ∈
      lookupD (parseRemarkFile F B) ⟨"", rA.FunctionName, 0, 0⟩ := by
    rw [parseRemarkFile_lookup_nil]
    exact List.mem_map_of_mem RemarkInfo.ofRemark
      (List.mem_filter.mpr ⟨hB, by simp [hfB, hkB]⟩)
  refine ⟨hmemA, hmemB, ?_⟩
  have hkeyA : (⟨"", rA.FunctionName, 0, 0⟩ : DebugLocation) ∈
      (parseRemarkFile F A).map Prod.fst := by
    apply lookupD_ne_nil_mem
    intro hnil
    rw [hnil] at hmemA
    exact absurd hmemA (List.not_mem_nil _)
  have hloc : (⟨"", rA.FunctionName, 0, 0⟩ : DebugLocation) ∈
      insertUniqueAll ((parseRemarkFile F A).map Prod.fst ++
        (parseRemarkFile F B).map Prod.fst) := by
    rw [insertUniqueAll, mem_foldl_insertUnique]
    exact Or.inr (List.mem_append.mpr (Or.inl hkeyA))
  refine ⟨computeDiffAtLoc cfg
    (lookupD (parseRemarkFile F A) ⟨"", rA.FunctionName, 0, 0⟩)
    (lookupD (parseRemarkFile F B) ⟨"", rA.FunctionName, 0, 0⟩)
    ⟨"", rA.FunctionName, 0, 0⟩, ?_, rfl, rfl⟩
  rw [remarkDiffPipeline, computeDiff]
  exact List.mem_map_of_mem _ hloc

/-- Witness for C10: two concrete location-less remarks of function
`foo`, one per stream, land in the same default-location bucket and are
diffed there. -/
theorem parseRemarkFile_noLoc_witness :
    RemarkInfo.ofRemark c10ra ∈
        lookupD (parseRemarkFile noFilters [c10ra])
          ⟨"", c10ra.FunctionName, 0, 0⟩ ∧
    RemarkInfo.ofRemark c10rb ∈
        lookupD (parseRemarkFile noFilters [c10rb])
          ⟨"", c10ra.FunctionName, 0, 0⟩ ∧
    ∃ d ∈ remarkDiffPipeline cfgDefault noFilters [c10ra] [c10rb],
      d.Loc = ⟨"", c10ra.FunctionName, 0, 0⟩ ∧
      d = computeDiffAtLoc cfgDefault
            (lookupD (parseRemarkFile noFilters [c10ra])
              ⟨"", c10ra.FunctionName, 0, 0⟩)
            (lookupD (parseRemarkFile noFilters [c10rb])
              ⟨"", c10ra.FunctionName, 0, 0⟩)
            ⟨"", c10ra.FunctionName, 0, 0⟩ :=
  parseRemarkFile_noLoc cfgDefault noFilters [c10ra] [c10rb] c10ra c10rb
    (List.mem_singleton.mpr rfl) (List.mem_singleton.mpr rfl) rfl rfl rfl rfl
    rfl

/-- The key image of a `MapVector` key insertion: append the key unless
present (the stored index does not affect the key set). -/
theorem mapVectorInsertKey_fst (m : List (String × Nat)) (k : String)
    (idx : Nat) :
    (mapVectorInsertKey m k idx).map Prod.fst =
      if k ∈ m.map Prod.fst then m.map Prod.fst
      else m.map Prod.fst ++ [k] := by
  have hany : (m.any fun p => p.1 == k) = true ↔ k ∈ m.map Prod.fst := by
    simp [List.any_eq_true, List.mem_map]
  by_cases h : k ∈ m.map Prod.fst
  · rw [mapVectorInsertKey, if_pos (hany.mpr h), if_pos h]
  · rw [mapVectorInsertKey, if_neg fun hc => h (hany.mp hc), if_neg h]
    simp

/-- Key discovery over one remark's arguments for one key matcher,
viewed on the key set: a first-seen fold over the matching numeric
argument keys. -/
theorem argsFold_fst (km : FilterMatcher) :
    ∀ (args : List Argument) (m : List (String × Nat)),
      ((args.foldl
          (fun m a =>
            if km.fmatch a.Key && a.isValInt then
              mapVectorInsertKey m a.Key m.length
            else m)
          m).map Prod.fst) =
        (args.filterMap fun a =>
            if km.fmatch a.Key && a.isValInt then some a.Key else none).foldl
          (fun acc k => if k ∈ acc then acc else acc ++ [k])
          (m.map Prod.fst) := by
  intro args
  induction args with
  | nil =>
    intro m
    rfl
  | cons a as ih =>
    intro m
    rw [List.foldl_cons, List.filterMap_cons]
    by_cases hc : (km.fmatch a.Key && a.isValInt) = true
    · rw [if_pos hc, if_pos hc, List.foldl_cons, ih, mapVectorInsertKey_fst]
    · rw [if_neg hc, if_neg hc, ih]

/-- Key discovery over one remark for all key matchers, viewed on the
key set. -/
theorem keysFold_fst (R : Remark) :
    ∀ (keys : List FilterMatcher) (m : List (String × Nat)),
      ((keys.foldl
          (fun m key =>
            R.Args.foldl
              (fun m a =>
                if key.fmatch a.Key && a.isValInt then
                  mapVectorInsertKey m a.Key m.length
                else m)
              m)
          m).map Prod.fst) =
        (keys.flatMap fun key =>
            R.Args.filterMap fun a =>
              if key.fmatch a.Key && a.isValInt then some a.Key
              else none).foldl
          (fun acc k => if k ∈ acc then acc else acc ++ [k])
          (m.map Prod.fst) := by
  intro keys
  induction keys with
  | nil =>
    intro m
    rfl
  | cons km kms ih =>
    intro m
    rw [List.foldl_cons, List.flatMap_cons, List.foldl_append, ih,
      argsFold_fst]

/-- The whole discovery pass, viewed on the key set: a first-seen fold
over the candidate key sequence. -/
theorem remarksFold_fst (keys : List FilterMatcher) (F : Filters) :
    ∀ (remarks : List Remark) (m : List (String × Nat)),
      ((remarks.foldl
          (fun m R =>
            if F.filterRemark R then
              keys.foldl
                (fun m key =>
                  R.Args.foldl
                    (fun m a =>
                      if key.fmatch a.Key && a.isValInt then
                        mapVectorInsertKey m a.Key m.length
                      else m)
                    m)
                m
            else m)
          m).map Prod.fst) =
        ((remarks.filter fun R => F.filterRemark R).flatMap fun R =>
            keys.flatMap fun key =>
              R.Args.filterMap fun a =>
                if key.fmatch a.Key && a.isValInt then some a.Key
                else none).foldl
          (fun acc k => if k ∈ acc then acc else acc ++ [k])
          (m.map Prod.fst) := by
  intro remarks
  induction remarks with
  | nil =>
    intro m
    rfl
  | cons R rs ih =>
    intro m
    rw [List.foldl_cons, List.filter_cons]
    by_cases hf : F.filterRemark R = true
    · rw [if_pos hf, hf, if_pos rfl, List.flatMap_cons, List.foldl_append,
        ih, keysFold_fst]
    · simp only [Bool.not_eq_true] at hf
      rw [hf]
      simp only [Bool.false_eq_true, if_false]
      exact ih m

/-- A first-seen fold keeps its accumulator duplicate-free. -/
theorem foldl_insertUnique_nodup {α : Type} [DecidableEq α] :
    ∀ (l acc : List α), acc.Nodup →
      (l.foldl (fun acc k => if k ∈ acc then acc else acc ++ [k])
          acc).Nodup := by
  intro l
  induction l with
  | nil =>
    intro acc h
    exact h
  | cons a as ih =>
    intro acc h
    rw [List.foldl_cons]
    by_cases ha : a ∈ acc
    · rw [if_pos ha]
      exact ih acc h
    · rw [if_neg ha]
      refine ih (acc ++ [a]) ?_
      rw [List.nodup_append]
      exact ⟨h, List.nodup_singleton a,
        fun x hx hxa => ha (List.mem_singleton.mp hxa ▸ hx)⟩

/-- C5: the discovered key universe is duplicate-free; it lists, in
first-discovery order (the first-seen dedup of the scan sequence),
exactly the argument keys that occur with a numeric value on some
filter-accepted remark and match some configured key matcher; it does
not depend on the grouping mode; and with no configured key matchers the
implicit wildcard pattern `.*` is used, which (compiling to a
match-everything predicate) matches every key. -/
theorem getAllKeysInRemarks_spec (keys : List FilterMatcher) (F : Filters)
    (remarks : List Remark) :
    ((getAllKeysInRemarks keys F remarks).map Prod.fst).Nodup ∧
    ((getAllKeysInRemarks keys F remarks).map Prod.fst =
      firstSeenDedup (discoveredKeySeq keys F remarks)) ∧
    (∀ k, k ∈ (getAllKeysInRemarks keys F remarks).map Prod.fst ↔
      ∃ R ∈ remarks, F.filterRemark R = true ∧
        ∃ a ∈ R.Args, a.Key = k ∧ a.isValInt = true ∧
          ∃ km ∈ keys, km.fmatch a.Key = true) ∧
    (∀ g g' : GroupBy,
      Except.map KeyCounter.KeySetIdxMap
          (KeyCounter.createKeyCounter g keys remarks F) =
        Except.map KeyCounter.KeySetIdxMap
          (KeyCounter.createKeyCounter g' keys remarks F)) ∧
    (∀ (eng : RegexEngine) (p : String → Bool),
      eng.compile ".*" = some p → (∀ s, p s = true) →
      ∀ s, (keysVectorOf eng [] []).any (fun m => m.fmatch s) = true) := by
  have hmain : (getAllKeysInRemarks keys F remarks).map Prod.fst =
      firstSeenDedup (discoveredKeySeq keys F remarks) := by
    rw [getAllKeysInRemarks, discoveredKeySeq, firstSeenDedup,
      remarksFold_fst]
    rfl
  refine ⟨?_, hmain, ?_, ?_, ?_⟩
  · rw [hmain, firstSeenDedup]
    exact foldl_insertUnique_nodup _ [] List.Pairwise.nil
  · intro k
    rw [hmain, firstSeenDedup, mem_foldl_insertUnique]
    simp only [List.not_mem_nil, false_or]
    rw [discoveredKeySeq]
    simp only [List.mem_flatMap, List.mem_filter, List.mem_filterMap]
    constructor
    · rintro ⟨R, ⟨hR, hfR⟩, km, hkm, a, ha, hsome⟩
      by_cases hc : (km.fmatch a.Key && a.isValInt) = true
      · rw [if_pos hc] at hsome
        have hand := hc
        rw [Bool.and_eq_true] at hand
        exact ⟨R, hR, hfR, a, ha, Option.some.inj hsome, hand.2, km, hkm,
          hand.1⟩
      · rw [if_neg hc] at hsome
        exact absurd hsome (by simp)
    · rintro ⟨R, hR, hfR, a, ha, hak, hint, km, hkm, hmatch⟩
      refine ⟨R, ⟨hR, hfR⟩, km, hkm, a, ha, ?_⟩
      rw [if_pos (by rw [Bool.and_eq_true]; exact ⟨hmatch, hint⟩), hak]
  · intro g g'
    cases h : checkKeysRegex keys with
    | error e => simp [KeyCounter.createKeyCounter, h, Except.map]
    | ok u => simp [KeyCounter.createKeyCounter, h, Except.map]
  · intro eng p hp hall s
    simp [keysVectorOf, FilterMatcher.create, FilterMatcher.fmatch, hp,
      hall s]

/-- Witness for C5: on the engine whose every pattern matches
everything, the implicit wildcard key-matcher list matches an arbitrary
key. -/
theorem getAllKeysInRemarks_spec_witness :
    (keysVectorOf wildcardEngine [] []).any
        (fun m => m.fmatch "NumStalledCycles") = true :=
  (getAllKeysInRemarks_spec [] noFilters []).2.2.2.2 wildcardEngine
    (fun _ => true) rfl (fun _ => rfl) "NumStalledCycles"

/-- A matcher-slot check fails exactly on a non-compiling regex. -/
theorem checkOptMatcher_error (o : Option FilterMatcher) :
    (∃ e, checkOptMatcher o = Except.error e) ↔ badPattern o := by
  cases o with
  | none => simp [checkOptMatcher, badPattern]
  | some m =>
    by_cases hr : m.IsRegex = true
    · cases hre : m.FilterRE with
      | none => simp [checkOptMatcher, hr, hre, checkRegex, badPattern]
      | some f => simp [checkOptMatcher, hr, hre, checkRegex, badPattern]
    · simp only [Bool.not_eq_true] at hr
      simp [checkOptMatcher, hr, badPattern]

/-- `regexArgumentsValid` fails exactly when some configured matcher
holds a non-compiling regex. -/
theorem regexArgumentsValid_error (F : Filters) :
    (∃ e, F.regexArgumentsValid = Except.error e) ↔
      badPattern F.RemarkNameFilter ∨ badPattern F.PassNameFilter ∨
        badPattern F.ArgFilter := by
  rw [Filters.regexArgumentsValid]
  cases h1 : checkOptMatcher F.RemarkNameFilter with
  | error e =>
    constructor
    · intro _
      exact Or.inl ((checkOptMatcher_error _).mp ⟨e, h1⟩)
    · intro _
      exact ⟨e, rfl⟩
  | ok u =>
    have hn1 : ¬badPattern F.RemarkNameFilter := by
      intro hb
      obtain ⟨e, he⟩ := (checkOptMatcher_error _).mpr hb
      exact Except.noConfusion (he.symm.trans h1)
    cases h2 : checkOptMatcher F.PassNameFilter with
    | error e =>
      constructor
      · intro _
        exact Or.inr (Or.inl ((checkOptMatcher_error _).mp ⟨e, h2⟩))
      · intro _
        exact ⟨e, rfl⟩
    | ok u2 =>
      have hn2 : ¬badPattern F.PassNameFilter := by
        intro hb
        obtain ⟨e, he⟩ := (checkOptMatcher_error _).mpr hb
        exact Except.noConfusion (he.symm.trans h2)
      rw [checkOptMatcher_error]
      constructor
      · intro hb
        exact Or.inr (Or.inr hb)
      · rintro (hb | hb | hb)
        · exact absurd hb hn1
        · exact absurd hb hn2
        · exact hb

/-- The key-matcher validation loop fails exactly when some key matcher
holds a non-compiling regex. -/
theorem checkKeysRegex_error :
    ∀ keys : List FilterMatcher,
      (∃ e, checkKeysRegex keys = Except.error e) ↔
        ∃ km ∈ keys, km.IsRegex = true ∧ km.FilterRE = none := by
  intro keys
  induction keys with
  | nil => simp [checkKeysRegex]
  | cons k rest ih =>
    rw [checkKeysRegex]
    by_cases hr : k.IsRegex = true
    · rw [if_pos hr]
      cases hre : k.FilterRE with
      | none =>
        simp only [checkRegex]
        constructor
        · intro _
          exact ⟨k, List.mem_cons_self _ _, hr, hre⟩
        · intro _
          exact ⟨"Regex: invalid pattern", rfl⟩
      | some f =>
        simp only [checkRegex]
        rw [ih]
        constructor
        · rintro ⟨km, hm, h1, h2⟩
          exact ⟨km, List.mem_cons_of_mem _ hm, h1, h2⟩
        · rintro ⟨km, hm, h1, h2⟩
          rcases List.mem_cons.mp hm with rfl | hm'
          · rw [hre] at h2
            exact absurd h2 (by simp)
          · exact ⟨km, hm', h1, h2⟩
    · rw [if_neg hr, ih]
      simp only [Bool.not_eq_true] at hr
      constructor
      · rintro ⟨km, hm, h1, h2⟩
        exact ⟨km, List.mem_cons_of_mem _ hm, h1, h2⟩
      · rintro ⟨km, hm, h1, h2⟩
        rcases List.mem_cons.mp hm with rfl | hm'
        · rw [hr] at h1
          exact absurd h1 (by simp)
        · exact ⟨km, hm', h1, h2⟩

/-- C9: filter construction fails iff some configured pattern does not
compile; after a failed construction no filter value exists; and
key-counter construction (the key universe) fails iff some key matcher's
pattern does not compile — in particular the failure condition does not
depend on the remark stream, so the failure happens before any remark is
processed. -/
theorem createFilter_error_iff (nm pm am : Option FilterMatcher)
    (ty : Option RemarkType) (g : GroupBy) (keys : List FilterMatcher)
    (remarks : List Remark) (F : Filters) :
    ((∃ e, Filters.createRemarkFilter nm pm am ty = Except.error e) ↔
      (badPattern nm ∨ badPattern pm ∨ badPattern am)) ∧
    ((∃ e, Filters.createRemarkFilter nm pm am ty = Except.error e) →
      ∀ F', Filters.createRemarkFilter nm pm am ty ≠ Except.ok F') ∧
    ((∃ e, KeyCounter.createKeyCounter g keys remarks F = Except.error e) ↔
      ∃ km ∈ keys, km.IsRegex = true ∧ km.FilterRE = none) := by
  refine ⟨?_, ?_, ?_⟩
  · simp only [Filters.createRemarkFilter]
    have hiff := regexArgumentsValid_error ⟨nm, pm, am, ty⟩
    cases h : Filters.regexArgumentsValid ⟨nm, pm, am, ty⟩ with
    | error e =>
      constructor
      · intro _
        exact hiff.mp ⟨e, h⟩
      · intro _
        exact ⟨e, rfl⟩
    | ok u =>
      constructor
      · rintro ⟨e, he⟩
        exact absurd he (by simp)
      · intro hb
        obtain ⟨e, he⟩ := hiff.mpr hb
        exact Except.noConfusion (he.symm.trans h)
  · rintro ⟨e, he⟩ F' hok
    rw [he] at hok
    exact Except.noConfusion hok
  · simp only [KeyCounter.createKeyCounter]
    have hiff := checkKeysRegex_error keys
    cases h : checkKeysRegex keys with
    | error e =>
      constructor
      · intro _
        exact hiff.mp ⟨e, h⟩
      · intro _
        exact ⟨e, rfl⟩
    | ok u =>
      constructor
      · rintro ⟨e, he⟩
        exact absurd he (by simp)
      · intro hb
        obtain ⟨e, he⟩ := hiff.mpr hb
        exact Except.noConfusion (he.symm.trans h)

/-- Witness for C9: construction from a matcher whose pattern did not
compile fails with an error. -/
theorem createFilter_error_iff_witness :
    ∃ e, Filters.createRemarkFilter (some badRegexMatcher) none none none =
      Except.error e :=
  (createFilter_error_iff (some badRegexMatcher) none none none
      GroupBy.TOTAL [] [] noFilters).1.mpr
    (Or.inl ⟨badRegexMatcher, rfl, rfl, rfl⟩)

end RemarkUtil
